import Mathlib

/-!
Verification development for the CSV-to-SQL menu-driven converter.

The repository contains two implementations:
* `csv_converter_pro.py` — `DataTypeInferrer.infer_sql_type` (pandas-based
  type inference), `CSVConverter._clean_column_name` (identifier
  sanitisation), `CSVConverter.analyze_csv` (per-column analysis);
* `convert_to_sql.py` — `csv_data` (row extraction with digit-string to
  integer conversion), `create_table` (second-row based type list),
  `newchanges_existingtable_table` (merge of new CSV rows into an
  existing table, skipping rows already present).

This file gives a shallow embedding of those functions.  Columns are
modelled as lists of optional strings (a `none` entry is a pandas null),
machine floats produced by `pd.to_numeric` are modelled as exact
rationals, and the behaviour of external library calls (`pd.to_numeric`,
`pd.to_datetime`, UTF-8 decoding of `open`) is modelled by executable
Lean functions whose doc comments state what they stand for.
-/

/-! ## Name sanitisation (`CSVConverter._clean_column_name`) -/

/-- A character kept by the regex class `[a-zA-Z0-9_]` used in
`_clean_column_name` (ASCII letters, ASCII digits, underscore). -/
def isWordChar (c : Char) : Bool := c.isAlpha || c.isDigit || c == '_'

/-- `re.sub(r'[^a-zA-Z0-9_]', '_', name)`: every character outside the
word class is replaced by an underscore. -/
def pyReplaceBad (l : List Char) : List Char :=
  l.map fun c => if isWordChar c then c else '_'

/-- `re.sub(r'_+', '_', name)`: each maximal run of underscores becomes a
single underscore. -/
def collapseU : List Char → List Char
  | [] => []
  | [c] => [c]
  | c :: d :: l =>
    if c == '_' && d == '_' then collapseU (d :: l) else c :: collapseU (d :: l)

/-- Right half of Python's `str.strip('_')`: remove every trailing
underscore. -/
def rstripU : List Char → List Char
  | [] => []
  | c :: l =>
    match rstripU l with
    | [] => if c == '_' then [] else [c]
    | d :: ds => c :: d :: ds

/-- Python's `str.strip('_')`: remove leading and trailing underscores. -/
def stripU (l : List Char) : List Char :=
  rstripU (l.dropWhile (fun c => c == '_'))

/-- `if clean_name and clean_name[0].isdigit(): clean_name = 'col_' + clean_name`. -/
def digitGuard : List Char → List Char
  | [] => []
  | c :: l => if c.isDigit then 'c' :: 'o' :: 'l' :: '_' :: c :: l else c :: l

/-- `CSVConverter._clean_column_name` from `csv_converter_pro.py`:
replace characters outside `[a-zA-Z0-9_]` by `_`, collapse runs of `_`,
strip leading/trailing `_`, put `col_` in front when the result starts
with a digit, and fall back to `unnamed_column` when empty. -/
def clean_column_name (s : String) : String :=
  let l := digitGuard (stripU (collapseU (pyReplaceBad s.data)))
  if l.isEmpty then "unnamed_column" else ⟨l⟩

/-- Dropping a matching front segment never lengthens a list. -/
theorem dropWhile_length_le (p : Char → Bool) (l : List Char) :
    (l.dropWhile p).length ≤ l.length := by
  induction l with
  | nil => simp [List.dropWhile]
  | cons c l ih =>
    simp only [List.dropWhile]
    cases p c
    · simp
    · simpa using Nat.le_succ_of_le ih

/-- Collapse of underscore runs written directly from the specification
text ("collapse consecutive `_`"): one underscore is emitted per run. -/
def specCollapse (l : List Char) : List Char :=
  match l with
  | [] => []
  | c :: t =>
    if c == '_' then '_' :: specCollapse (t.dropWhile (fun a => a == '_'))
    else c :: specCollapse t
termination_by l.length
decreasing_by
  all_goals simp only [List.length_cons]
  · exact Nat.lt_succ_of_le (dropWhile_length_le _ _)
  · exact Nat.lt_succ_of_le (Nat.le_refl _)

/-- The sanitiser exactly as the specification words it: replace every
character outside `[A-Za-z0-9_]` with `_`, collapse consecutive `_`,
trim leading and trailing `_`, put `col_` in front when the result
starts with a digit, return `unnamed_column` when the result is empty —
in that order.  Kept distinct from `clean_column_name` so that the two
can be compared. -/
def sanitizeSpec (s : String) : String :=
  let r1 := s.data.map fun c => if isWordChar c then c else '_'
  let r2 := specCollapse r1
  let r3 := ((r2.dropWhile (fun c => c == '_')).reverse.dropWhile (fun c => c == '_')).reverse
  let r4 := match r3 with
    | [] => ([] : List Char)
    | c :: cs => if c.isDigit then 'c' :: 'o' :: 'l' :: '_' :: c :: cs else c :: cs
  if r4 = [] then "unnamed_column" else ⟨r4⟩

/-! ## Row extraction (`csv_data` in `convert_to_sql.py`) -/

/-- A field value produced by `csv_data`: either a Python `int` (the
result of `int(value)`) or the raw string. -/
inductive PyVal where
  | vInt (n : Nat)
  | vStr (s : String)
deriving DecidableEq

/-- Python's `str.isdigit` restricted to ASCII (true on a non-empty
all-digit string). -/
def pyIsDigit (s : String) : Bool := !s.data.isEmpty && s.data.all Char.isDigit

/-- Python's `str.isalpha` restricted to ASCII (true on a non-empty
all-letter string). -/
def pyIsAlpha (s : String) : Bool := !s.data.isEmpty && s.data.all Char.isAlpha

/-- Decimal value of a digit string, as computed by Python's `int`. -/
def digitsVal (cs : List Char) : Nat := cs.foldl (fun a c => 10 * a + (c.toNat - 48)) 0

/-- The per-field conversion inside `csv_data`: a field consisting only
of digits becomes `int(value)`, anything else stays a raw string. -/
def formatField (s : String) : PyVal :=
  if pyIsDigit s then .vInt (digitsVal s.data) else .vStr s

/-- `csv_data` applied to one parsed CSV row. -/
def formatRow (r : List String) : List PyVal := r.map formatField

/-- The formatting loop of `csv_data`: every parsed row, header
included, is converted field by field. -/
def csv_data_format (rows : List (List String)) : List (List PyVal) :=
  rows.map formatRow

/-- `newchanges_existingtable_table`: drop the CSV header, then keep
exactly the rows whose whole value list is not already present in the
snapshot of the existing table. -/
def newchanges_existingtable (existing : List (List PyVal))
    (rawCsv : List (List String)) : List (List PyVal) :=
  ((csv_data_format rawCsv).drop 1).filter (fun r => decide (r ∉ existing))

/-- The single-cell classification inside `create_table`
(`convert_to_sql.py` lines 115-126).  The Python code tests
`i.isalpha()`, then `i.isdigit()`, then `elif i.isnumeric:` — the
missing call parentheses make that guard a method reference, which is
always truthy, so the `date` and `else` arms are unreachable and a cell
that is neither alphabetic, nor all digits, nor contains a dot
contributes no entry at all. -/
def classify_cell (v : String) : List String :=
  if pyIsAlpha v then ["varchar(255)"]
  else if pyIsDigit v then ["int(11)"]
  else if v.data.contains '.' then ["float"]
  else []

/-- The `data_types` list built by `create_table` from the second CSV
row. -/
def create_table_data_types (secondRow : List String) : List String :=
  (secondRow.map classify_cell).flatten

/-! ## Type inference (`DataTypeInferrer` in `csv_converter_pro.py`) -/

/-- The SQL type names `infer_sql_type` can return, as an enumeration. -/
inductive SqlType where
  | TEXT
  | BOOLEAN
  | TINYINT
  | SMALLINT
  | INT
  | BIGINT
  | DECIMAL10_2
  | DATE
  | DATETIME
  | VARCHAR (n : Nat)
deriving DecidableEq

/-- The exact string `infer_sql_type` returns for each enumeration
value. -/
def SqlType.render : SqlType → String
  | .TEXT => "TEXT"
  | .BOOLEAN => "BOOLEAN"
  | .TINYINT => "TINYINT"
  | .SMALLINT => "SMALLINT"
  | .INT => "INT"
  | .BIGINT => "BIGINT"
  | .DECIMAL10_2 => "DECIMAL(10,2)"
  | .DATE => "DATE"
  | .DATETIME => "DATETIME"
  | .VARCHAR n => "VARCHAR(" ++ toString n ++ ")"

/-- Split a character list at its first dot: the part before, and
(when a dot occurs) the part after. -/
def splitDot : List Char → List Char × Option (List Char)
  | [] => ([], none)
  | c :: l =>
    if c == '.' then ([], some l)
    else
      let p := splitDot l
      (c :: p.1, p.2)

/-- Unsigned part of the numeric parser: digits with an optional
fractional part, at least one digit overall. -/
def parseUnsigned (cs : List Char) : Option ℚ :=
  match splitDot cs with
  | (a, none) =>
    if !a.isEmpty && a.all Char.isDigit then some ((digitsVal a : ℚ)) else none
  | (a, some b) =>
    if (!a.isEmpty || !b.isEmpty) && a.all Char.isDigit && b.all Char.isDigit then
      some ((digitsVal a : ℚ) + (digitsVal b : ℚ) / ((10 : ℚ) ^ b.length))
    else none

/-- Model of `pd.to_numeric(·, errors='coerce')` on a single text value:
an optional sign followed by digits with an optional fractional part
parses to an exact rational (the float is modelled exactly); anything
else is coerced to null (`none`). -/
def parseNum (s : String) : Option ℚ :=
  match s.data with
  | [] => none
  | c :: l =>
    if c == '-' then (parseUnsigned l).map (fun q => -q)
    else if c == '+' then parseUnsigned l
    else parseUnsigned (c :: l)

/-- `series.dropna()`: the non-null values of a column. -/
def dropna (series : List (Option String)) : List String := series.filterMap id

/-- `pd.to_numeric(series, errors='coerce').dropna()`: the values that
parse as numbers; values that fail to parse are coerced to null and
then dropped. -/
def coerced (vals : List String) : List ℚ := vals.filterMap parseNum

/-- Python `str.lower` restricted to ASCII. -/
def pyLower (s : String) : String := ⟨s.data.map Char.toLower⟩

/-- The boolean token set of `_is_boolean`. -/
def boolTokens : List String := ["true", "false", "1", "0", "yes", "no", "y", "n"]

/-- `DataTypeInferrer._is_boolean`: every lower-cased value is one of
the boolean tokens. -/
def isBooleanCol (vals : List String) : Bool :=
  vals.all (fun v => boolTokens.contains (pyLower v))

/-- `DataTypeInferrer._is_integer`: coerce to numbers, drop the
failures; true when something is left and every remaining number is
integral. -/
def isIntegerCol (vals : List String) : Bool :=
  !(coerced vals).isEmpty && (coerced vals).all (fun q => q.den == 1)

/-- `DataTypeInferrer._is_float`: coerce to numbers, drop the failures;
true when something is left and not every remaining number is
integral. -/
def isFloatCol (vals : List String) : Bool :=
  !(coerced vals).isEmpty && !((coerced vals).all (fun q => q.den == 1))

/-- `re.match(r'\d{4}-\d{2}-\d{2}', s)` (a match of the leading
characters; the rest of the string is unconstrained). -/
def pat_ymd_dash (l : List Char) : Bool :=
  match l with
  | a :: b :: c :: d :: '-' :: e :: f :: '-' :: g :: h :: _ =>
    [a, b, c, d, e, f, g, h].all Char.isDigit
  | _ => false

/-- `re.match(r'\d{2}/\d{2}/\d{4}', s)`. -/
def pat_mdy_slash (l : List Char) : Bool :=
  match l with
  | a :: b :: '/' :: c :: d :: '/' :: e :: f :: g :: h :: _ =>
    [a, b, c, d, e, f, g, h].all Char.isDigit
  | _ => false

/-- `re.match(r'\d{2}-\d{2}-\d{4}', s)`. -/
def pat_dmy_dash (l : List Char) : Bool :=
  match l with
  | a :: b :: '-' :: c :: d :: '-' :: e :: f :: g :: h :: _ =>
    [a, b, c, d, e, f, g, h].all Char.isDigit
  | _ => false

/-- `re.match(r'\d{4}/\d{2}/\d{2}', s)`. -/
def pat_ymd_slash (l : List Char) : Bool :=
  match l with
  | a :: b :: c :: d :: '/' :: e :: f :: '/' :: g :: h :: _ =>
    [a, b, c, d, e, f, g, h].all Char.isDigit
  | _ => false

/-- The `for pattern in self.date_patterns` loop head of `_is_date`:
does any of the four recognised date shapes match the sample value? -/
def matchesDatePattern (s : String) : Bool :=
  pat_ymd_dash s.data || pat_mdy_slash s.data || pat_dmy_dash s.data || pat_ymd_slash s.data

/-- Two-digit decimal value. -/
def digit2 (a b : Char) : Nat := 10 * (a.toNat - 48) + (b.toNat - 48)

/-- Coarse month/day validity used by the `pd.to_datetime` model. -/
def validMD (m d : Nat) : Bool :=
  decide (1 ≤ m) && decide (m ≤ 12) && decide (1 ≤ d) && decide (d ≤ 31)

/-- Optional `HH:MM:SS` tail (after one space) for the `pd.to_datetime`
model. -/
def timeOk (l : List Char) : Bool :=
  match l with
  | [] => true
  | ' ' :: h1 :: h2 :: ':' :: m1 :: m2 :: ':' :: s1 :: s2 :: [] =>
    [h1, h2, m1, m2, s1, s2].all Char.isDigit
      && decide (digit2 h1 h2 < 24) && decide (digit2 m1 m2 < 60) && decide (digit2 s1 s2 < 60)
  | _ => false

/-- Model of `pd.to_datetime(·, errors='coerce')` succeeding on a single
value: one of the four recognised date layouts with a plausible month
and day, optionally followed by a `HH:MM:SS` time.  Values outside
these shapes are modelled as coerced to `NaT`. -/
def pdToDatetimeOk (s : String) : Bool :=
  match s.data with
  | y1 :: y2 :: y3 :: y4 :: '-' :: m1 :: m2 :: '-' :: d1 :: d2 :: rest =>
    [y1, y2, y3, y4, m1, m2, d1, d2].all Char.isDigit
      && validMD (digit2 m1 m2) (digit2 d1 d2) && timeOk rest
  | m1 :: m2 :: '/' :: d1 :: d2 :: '/' :: y1 :: y2 :: y3 :: y4 :: rest =>
    [m1, m2, d1, d2, y1, y2, y3, y4].all Char.isDigit
      && validMD (digit2 m1 m2) (digit2 d1 d2) && timeOk rest
  | d1 :: d2 :: '-' :: m1 :: m2 :: '-' :: y1 :: y2 :: y3 :: y4 :: rest =>
    [d1, d2, m1, m2, y1, y2, y3, y4].all Char.isDigit
      && validMD (digit2 m1 m2) (digit2 d1 d2) && timeOk rest
  | y1 :: y2 :: y3 :: y4 :: '/' :: m1 :: m2 :: '/' :: d1 :: d2 :: rest =>
    [y1, y2, y3, y4, m1, m2, d1, d2].all Char.isDigit
      && validMD (digit2 m1 m2) (digit2 d1 d2) && timeOk rest
  | _ => false

/-- `DataTypeInferrer._is_date`: the first value is matched against the
four date patterns; when one matches, the column counts as a date
column as soon as at least one of the first ten values parses
(`not parsed.isna().all()`).  An empty series raises inside
`series.iloc[0]` and the bare `except` turns that into `False`. -/
def isDateCol (vals : List String) : Bool :=
  match vals with
  | [] => false
  | v :: _ => matchesDatePattern v && (vals.take 10).any pdToDatetimeOk

/-- `re.match(r'\d{4}-\d{2}-\d{2}\s+\d{2}:\d{2}:\d{2}', s)`, with `\s+`
modelled as one or more spaces. -/
def pat_dt_dash (l : List Char) : Bool :=
  match l with
  | a :: b :: c :: d :: '-' :: e :: f :: '-' :: g :: h :: rest =>
    [a, b, c, d, e, f, g, h].all Char.isDigit &&
      (match rest with
        | ' ' :: r2 =>
          (match r2.dropWhile (fun x => x == ' ') with
            | p :: q :: ':' :: r :: s :: ':' :: t :: u :: _ =>
              [p, q, r, s, t, u].all Char.isDigit
            | _ => false)
        | _ => false)
  | _ => false

/-- `re.match(r'\d{2}/\d{2}/\d{4}\s+\d{2}:\d{2}:\d{2}', s)`, with `\s+`
modelled as one or more spaces. -/
def pat_dt_slash (l : List Char) : Bool :=
  match l with
  | a :: b :: '/' :: c :: d :: '/' :: e :: f :: g :: h :: rest =>
    [a, b, c, d, e, f, g, h].all Char.isDigit &&
      (match rest with
        | ' ' :: r2 =>
          (match r2.dropWhile (fun x => x == ' ') with
            | p :: q :: ':' :: r :: s :: ':' :: t :: u :: _ =>
              [p, q, r, s, t, u].all Char.isDigit
            | _ => false)
        | _ => false)
  | _ => false

/-- `DataTypeInferrer._is_datetime`, with the same sample-and-head-ten
shape as `_is_date`. -/
def isDatetimeCol (vals : List String) : Bool :=
  match vals with
  | [] => false
  | v :: _ => (pat_dt_dash v.data || pat_dt_slash v.data) && (vals.take 10).any pdToDatetimeOk

/-- `series.min()` on a list of parsed numbers (0 on the empty list,
which `infer_sql_type` never reaches). -/
def listMinQ : List ℚ → ℚ
  | [] => 0
  | q :: qs => qs.foldl min q

/-- `series.max()` on a list of parsed numbers. -/
def listMaxQ : List ℚ → ℚ
  | [] => 0
  | q :: qs => qs.foldl max q

/-- The integer-width selection of `infer_sql_type` (lines 102-117),
driven by the observed minimum and maximum of the coerced numbers.  The
empty case mirrors the NaN comparisons pandas would produce (every
bound check false, so `BIGINT`); it is unreachable behind
`_is_integer`. -/
def intTypeFor (nums : List ℚ) : SqlType :=
  if nums.isEmpty then .BIGINT
  else if -128 ≤ listMinQ nums ∧ listMaxQ nums ≤ 127 then .TINYINT
  else if -32768 ≤ listMinQ nums ∧ listMaxQ nums ≤ 32767 then .SMALLINT
  else if -2147483648 ≤ listMinQ nums ∧ listMaxQ nums ≤ 2147483647 then .INT
  else .BIGINT

/-- `non_null_series.astype(str).str.len().max()` (0 on the empty list,
unreachable behind the emptiness guard). -/
def maxObservedLen (vals : List String) : Nat :=
  (vals.map String.length).foldl max 0

/-- The VARCHAR/TEXT fallback of `infer_sql_type` (lines 131-140):
`TEXT` when the longest value exceeds the bound, otherwise
`VARCHAR(min(int(max_length * 1.2), max_varchar_length))`; Python's
`int` truncates, so `int(max_length * 1.2)` is `6 * m / 5` in natural
division. -/
def varcharFallback (vals : List String) (maxVarcharLen : Nat) : SqlType :=
  if vals.isEmpty then .TEXT
  else if maxVarcharLen < maxObservedLen vals then .TEXT
  else .VARCHAR (min (6 * maxObservedLen vals / 5) maxVarcharLen)

/-- `DataTypeInferrer.infer_sql_type`: drop nulls, then try BOOLEAN,
the integer widths, DECIMAL(10,2), DATE, DATETIME, and finally the
VARCHAR/TEXT fallback, in that order. -/
def infer_sql_type (series : List (Option String)) (maxVarcharLen : Nat) : SqlType :=
  let nn := dropna series
  if nn.length = 0 then .TEXT
  else if isBooleanCol nn then .BOOLEAN
  else if isIntegerCol nn then intTypeFor (coerced nn)
  else if isFloatCol nn then .DECIMAL10_2
  else if isDateCol nn then .DATE
  else if isDatetimeCol nn then .DATETIME
  else varcharFallback nn maxVarcharLen

/-- Round-half-up of the fraction `a / b`, the reading of `round` used
by the specification's VARCHAR formula (for comparison with the
truncation the code performs). -/
def spec_round (a b : Nat) : Nat := (2 * a + b) / (2 * b)

/-! ## Per-column analysis (`CSVConverter.analyze_csv`) -/

/-- One entry of the `analysis['columns']` dictionary built by
`analyze_csv`. -/
structure ColumnAnalysis where
  original_name : String
  clean_name : String
  sql_type : SqlType
  non_null_count : Nat
  null_count : Nat
  unique_values : Nat
  sample_values : List String
deriving DecidableEq

/-- The `for col in df.columns` loop of `analyze_csv`: one descriptor
per header field, carrying the cleaned name, the inferred SQL type
(with the default VARCHAR bound 255) and the summary counts.  A column
is a header name paired with its cell values. -/
def analyze_columns (cols : List (String × List (Option String))) : List ColumnAnalysis :=
  cols.map fun c =>
    { original_name := c.1
      clean_name := clean_column_name c.1
      sql_type := infer_sql_type c.2 255
      non_null_count := (dropna c.2).length
      null_count := c.2.length - (dropna c.2).length
      unique_values := (dropna c.2).dedup.length
      sample_values := (dropna c.2).take 3 }

/-! ## Opening the row source (`csv_data` file handling) -/

/-- Is a byte a UTF-8 continuation byte? -/
def isCont (b : Nat) : Bool := decide (128 ≤ b) && decide (b < 192)

/-- Strict UTF-8 decoding of a byte list, the check Python's
`open(..., encoding='utf - 8')` (codec `utf_8`, error mode `strict`)
performs while reading: `none` models a `UnicodeDecodeError`, rejecting
stray continuation bytes, overlong forms, surrogates and code points
beyond U+10FFFF. -/
def utf8Decode : List Nat → Option (List Char)
  | [] => some []
  | b :: l =>
    if b < 128 then
      (utf8Decode l).map (fun cs => Char.ofNat b :: cs)
    else if b < 194 then none
    else if b < 224 then
      match l with
      | b2 :: l2 =>
        if isCont b2 then
          (utf8Decode l2).map (fun cs => Char.ofNat ((b - 192) * 64 + (b2 - 128)) :: cs)
        else none
      | [] => none
    else if b < 240 then
      match l with
      | b2 :: b3 :: l3 =>
        if isCont b2 && isCont b3
            && (!(b == 224) || decide (160 ≤ b2))
            && (!(b == 237) || decide (b2 < 160)) then
          (utf8Decode l3).map
            (fun cs => Char.ofNat ((b - 224) * 4096 + (b2 - 128) * 64 + (b3 - 128)) :: cs)
        else none
      | _ => none
    else if b < 245 then
      match l with
      | b2 :: b3 :: b4 :: l4 =>
        if isCont b2 && isCont b3 && isCont b4
            && (!(b == 240) || decide (144 ≤ b2))
            && (!(b == 244) || decide (b2 < 144)) then
          (utf8Decode l4).map
            (fun cs =>
              Char.ofNat ((b - 240) * 262144 + (b2 - 128) * 4096 + (b3 - 128) * 64 + (b4 - 128)) :: cs)
        else none
      | _ => none
    else none

/-- The two errors `csv_data` can raise while opening and reading the
file: Python's `FileNotFoundError` (the spec's `NotFoundError`) and
`UnicodeDecodeError` (the spec's `EncodingError`). -/
inductive CsvError where
  | notFound
  | encoding
deriving DecidableEq

/-- `csv_data(file_path)` including the `open` call: the file system is
a map from paths to byte contents, the CSV text parser (`csv.reader`)
is an external collaborator passed as a function.  A missing path
raises `FileNotFoundError`; bytes that are not valid UTF-8 raise
`UnicodeDecodeError`; otherwise every parsed row is formatted by the
digit-conversion loop. -/
def csv_data_model (readerF : List Char → List (List String))
    (fs : String → Option (List Nat)) (path : String) :
    Except CsvError (List (List PyVal)) :=
  match fs path with
  | none => .error .notFound
  | some bytes =>
    match utf8Decode bytes with
    | none => .error .encoding
    | some text => .ok (csv_data_format (readerF text))

/-- A one-file file system used to instantiate `csv_data_model`:
`data.csv` holds the single byte `0x31` (the character `1`). -/
def sampleFs (p : String) : Option (List Nat) :=
  if p = "data.csv" then some [49] else none

/-- A minimal stand-in for `csv.reader`: the whole text is one row with
one field. -/
def sampleReader (text : List Char) : List (List String) := [[⟨text⟩]]

/-! ## Lemmas about the sanitiser -/

/-- No two adjacent underscores. -/
def NoTwoU (l : List Char) : Prop :=
  List.Chain' (fun a b => ¬(a = '_' ∧ b = '_')) l

/-- Characters of the replaced list are word characters. -/
theorem mem_pyReplaceBad {a : Char} {l : List Char} (h : a ∈ pyReplaceBad l) :
    isWordChar a = true := by
  rcases List.mem_map.mp h with ⟨c, _, hc⟩
  by_cases hw : isWordChar c = true
  · rw [if_pos hw] at hc
    rw [← hc]
    exact hw
  · rw [if_neg hw] at hc
    rw [← hc]
    decide

/-- Replacement is the identity on lists of word characters. -/
theorem pyReplaceBad_eq_self {l : List Char} (h : ∀ a ∈ l, isWordChar a = true) :
    pyReplaceBad l = l := by
  unfold pyReplaceBad
  have hmap : l.map (fun c => if isWordChar c then c else '_') = l.map id :=
    List.map_congr_left (fun a ha => by simp [h a ha])
  rw [hmap, List.map_id]

/-- Collapsing never invents characters. -/
theorem mem_collapseU {a : Char} : ∀ {l : List Char}, a ∈ collapseU l → a ∈ l
  | [], h => by simpa [collapseU] using h
  | [c], h => by simpa [collapseU] using h
  | c :: d :: l, h => by
    by_cases hcd : (c == '_' && d == '_') = true
    · have := mem_collapseU (l := d :: l) (by simpa [collapseU, hcd] using h)
      exact List.mem_cons_of_mem _ this
    · simp only [collapseU, hcd, if_false, Bool.not_eq_true] at h
      rcases List.mem_cons.mp h with h | h
      · simp [h]
      · exact List.mem_cons_of_mem _ (mem_collapseU (l := d :: l) h)

/-- The collapsed list keeps the original head. -/
theorem collapseU_head (c : Char) : ∀ (l : List Char), (collapseU (c :: l)).head? = some c
  | [] => by simp [collapseU]
  | d :: l => by
    by_cases hcd : (c == '_' && d == '_') = true
    · have heq : c = d := by
        have h1 : c = '_' := by simpa using (Bool.and_eq_true_iff.mp hcd).1
        have h2 : d = '_' := by simpa using (Bool.and_eq_true_iff.mp hcd).2
        rw [h1, h2]
      simp only [collapseU, hcd, if_true]
      rw [heq]
      exact collapseU_head d l
    · simp [collapseU, hcd]

/-- The collapsed list has no two adjacent underscores. -/
theorem noTwoU_collapseU : ∀ (l : List Char), NoTwoU (collapseU l)
  | [] => by simp [collapseU, NoTwoU]
  | [c] => by simp [collapseU, NoTwoU]
  | c :: d :: l => by
    by_cases hcd : (c == '_' && d == '_') = true
    · simpa [collapseU, NoTwoU, hcd] using noTwoU_collapseU (d :: l)
    · simp only [collapseU, hcd, if_false, Bool.not_eq_true]
      refine List.chain'_cons'.mpr ⟨?_, noTwoU_collapseU (d :: l)⟩
      intro y hy
      rw [collapseU_head d l] at hy
      cases hy
      intro hcontra
      exact absurd (by simp [hcontra.1, hcontra.2] : (c == '_' && d == '_') = true) hcd

/-- Collapsing is the identity when there are no two adjacent
underscores. -/
theorem collapseU_eq_self : ∀ {l : List Char}, NoTwoU l → collapseU l = l
  | [], _ => rfl
  | [c], _ => rfl
  | c :: d :: l, h => by
    have hR := (List.chain'_cons.mp h).1
    have ht := (List.chain'_cons.mp h).2
    have hcd : (c == '_' && d == '_') = false := by
      by_contra hx
      exact hR (by simpa using Bool.and_eq_true_iff.mp (Bool.of_not_eq_false hx))
    simp [collapseU, hcd, collapseU_eq_self ht]

/-- Trailing-strip never invents characters. -/
theorem mem_rstripU {a : Char} : ∀ {l : List Char}, a ∈ rstripU l → a ∈ l
  | [], h => by simpa [rstripU] using h
  | c :: l, h => by
    rcases hr : rstripU l with _ | ⟨d, ds⟩
    · rw [rstripU, hr] at h
      by_cases hc : (c == '_') = true
      · simp [hc] at h
      · simp only [hc, if_false, Bool.not_eq_true] at h
        rcases List.mem_singleton.mp h with rfl
        exact List.mem_cons_self _ _
    · rw [rstripU, hr] at h
      rcases List.mem_cons.mp h with rfl | h
      · exact List.mem_cons_self _ _
      · exact List.mem_cons_of_mem _ (mem_rstripU (l := l) (hr ▸ h))

/-- Trailing-strip keeps the head (or empties the list). -/
theorem rstripU_head (c : Char) (l : List Char) :
    rstripU (c :: l) = [] ∨ (rstripU (c :: l)).head? = some c := by
  rcases hr : rstripU l with _ | ⟨d, ds⟩
  · by_cases hc : (c == '_') = true
    · left
      simp [rstripU, hr, hc]
    · right
      simp [rstripU, hr, hc]
  · right
    simp [rstripU, hr]

/-- Trailing-strip preserves the absence of adjacent underscores. -/
theorem noTwoU_rstripU : ∀ {l : List Char}, NoTwoU l → NoTwoU (rstripU l)
  | [], _ => by simpa [rstripU, NoTwoU] using List.chain'_nil
  | c :: l, h => by
    have ht : NoTwoU l := (List.chain'_cons'.mp h).2
    have hhd := (List.chain'_cons'.mp h).1
    rcases hr : rstripU l with _ | ⟨d, ds⟩
    · by_cases hc : (c == '_') = true
      · simp [rstripU, hr, hc, NoTwoU]
      · simp [rstripU, hr, hc, NoTwoU]
    · rw [rstripU, hr]
      refine List.chain'_cons.mpr ⟨?_, hr ▸ noTwoU_rstripU (l := l) ht⟩
      rcases l with _ | ⟨e, l'⟩
      · simp [rstripU] at hr
      · rcases rstripU_head e l' with hnil | hhead
        · rw [hnil] at hr
          cases hr
        · rw [hr] at hhead
          cases hhead
          exact hhd _ rfl

/-- Trailing-strip leaves no trailing underscore. -/
theorem rstripU_last_ne : ∀ {l : List Char} {a : Char},
    (rstripU l).getLast? = some a → a ≠ '_'
  | [], a, h => by simp [rstripU] at h
  | c :: l, a, h => by
    rcases hr : rstripU l with _ | ⟨d, ds⟩
    · rw [rstripU, hr] at h
      by_cases hc : (c == '_') = true
      · simp [hc] at h
      · rw [if_neg hc] at h
        simp only [List.getLast?_singleton, Option.some.injEq] at h
        subst h
        simpa using hc
    · rw [rstripU, hr, List.getLast?_cons_cons] at h
      exact rstripU_last_ne (l := l) (hr ▸ h)

/-- Trailing-strip is the identity when the last character is not an
underscore. -/
theorem rstripU_eq_self : ∀ {l : List Char},
    (∀ a, l.getLast? = some a → a ≠ '_') → rstripU l = l
  | [], _ => rfl
  | [c], h => by
    have hc : c ≠ '_' := h c (by simp)
    simp [rstripU, hc]
  | c :: d :: l, h => by
    have ht : rstripU (d :: l) = d :: l :=
      rstripU_eq_self (fun a ha => h a (by rwa [List.getLast?_cons_cons]))
    rw [rstripU, ht]

/-- The head left by `dropWhile` does not satisfy the predicate. -/
theorem dropWhile_head_not (p : Char → Bool) :
    ∀ {l : List Char} {a : Char}, (l.dropWhile p).head? = some a → p a = false
  | [], a, h => by simp [List.dropWhile] at h
  | c :: l, a, h => by
    by_cases hc : p c = true
    · rw [List.dropWhile_cons_of_pos hc] at h
      exact dropWhile_head_not p h
    · rw [List.dropWhile_cons_of_neg hc] at h
      simp only [List.head?_cons, Option.some.injEq] at h
      subst h
      simpa using hc

/-- `dropWhile` preserves the last element when something is left. -/
theorem dropWhile_getLast (p : Char → Bool) :
    ∀ {l : List Char}, l.dropWhile p ≠ [] → (l.dropWhile p).getLast? = l.getLast?
  | [], h => by simp [List.dropWhile] at h
  | c :: l, h => by
    by_cases hc : p c = true
    · rw [List.dropWhile_cons_of_pos hc] at h ⊢
      have hl : l ≠ [] := by
        intro hnil
        rw [hnil] at h
        simp [List.dropWhile] at h
      rcases l with _ | ⟨d, l'⟩
      · exact absurd rfl hl
      · rw [List.getLast?_cons_cons]
        exact dropWhile_getLast p h
    · rw [List.dropWhile_cons_of_neg hc]

/-- `dropWhile` preserves the absence of adjacent underscores. -/
theorem noTwoU_dropWhile (p : Char → Bool) :
    ∀ {l : List Char}, NoTwoU l → NoTwoU (l.dropWhile p)
  | [], h => by simpa [List.dropWhile] using h
  | c :: l, h => by
    by_cases hc : p c = true
    · rw [List.dropWhile_cons_of_pos hc]
      exact noTwoU_dropWhile p (List.chain'_cons'.mp h).2
    · rwa [List.dropWhile_cons_of_neg hc]

/-- Full strip never invents characters. -/
theorem mem_stripU {a : Char} {l : List Char} (h : a ∈ stripU l) : a ∈ l :=
  (List.dropWhile_sublist (fun c => c == '_')).mem (mem_rstripU h)

/-- Full strip preserves the absence of adjacent underscores. -/
theorem noTwoU_stripU {l : List Char} (h : NoTwoU l) : NoTwoU (stripU l) :=
  noTwoU_rstripU (noTwoU_dropWhile _ h)

/-- The stripped list starts with a non-underscore. -/
theorem stripU_head_ne {l : List Char} {a : Char} (h : (stripU l).head? = some a) :
    a ≠ '_' := by
  unfold stripU at h
  rcases hd : l.dropWhile (fun c => c == '_') with _ | ⟨c, m⟩
  · rw [hd] at h
    simp [rstripU] at h
  · rw [hd] at h
    rcases rstripU_head c m with hnil | hhead
    · rw [hnil] at h
      cases h
    · rw [hhead] at h
      cases h
      have := dropWhile_head_not (fun c => c == '_') (l := l) (by rw [hd]; rfl)
      simpa using this

/-- The stripped list ends with a non-underscore. -/
theorem stripU_last_ne {l : List Char} {a : Char} (h : (stripU l).getLast? = some a) :
    a ≠ '_' :=
  rstripU_last_ne h

/-- Stripping is the identity when neither end is an underscore. -/
theorem stripU_eq_self {l : List Char}
    (hh : ∀ a, l.head? = some a → a ≠ '_')
    (hl : ∀ a, l.getLast? = some a → a ≠ '_') : stripU l = l := by
  unfold stripU
  have hdrop : l.dropWhile (fun c => c == '_') = l := by
    rcases l with _ | ⟨c, m⟩
    · rfl
    · have hc : c ≠ '_' := hh c rfl
      rw [List.dropWhile_cons_of_neg (by simpa using hc)]
  rw [hdrop]
  exact rstripU_eq_self hl

/-- Unfolding equation of `specCollapse` on the empty list. -/
theorem specCollapse_nil : specCollapse [] = [] := by
  rw [specCollapse.eq_def]

/-- Unfolding equation of `specCollapse` on a cons. -/
theorem specCollapse_cons (c : Char) (t : List Char) :
    specCollapse (c :: t) =
      if c == '_' then '_' :: specCollapse (t.dropWhile (fun a => a == '_'))
      else c :: specCollapse t := by
  rw [specCollapse.eq_def]

/-- The source collapse (pairwise scan) computes the specification
collapse (one underscore per run). -/
theorem collapseU_eq_specCollapse : ∀ l : List Char, collapseU l = specCollapse l := by
  intro l
  induction l with
  | nil => rw [specCollapse_nil]; rfl
  | cons c t ih =>
    cases t with
    | nil =>
      rw [specCollapse_cons]
      by_cases hc : (c == '_') = true
      · rw [if_pos hc]
        have hceq : c = '_' := by simpa using hc
        subst hceq
        rw [List.dropWhile_nil, specCollapse_nil]
        rfl
      · rw [if_neg hc, specCollapse_nil]
        rfl
    | cons d t' =>
      rw [specCollapse_cons]
      by_cases hc : (c == '_') = true
      · rw [if_pos hc]
        have hceq : c = '_' := by simpa using hc
        subst hceq
        by_cases hd : (d == '_') = true
        · have hdeq : d = '_' := by simpa using hd
          subst hdeq
          have hL : collapseU ('_' :: '_' :: t') = collapseU ('_' :: t') := by
            simp [collapseU]
          have hdw : List.dropWhile (fun a => a == '_') ('_' :: t') =
              List.dropWhile (fun a => a == '_') t' := by
            simp [List.dropWhile]
          rw [hL, ih, hdw, specCollapse_cons]
          simp
        · have hL : collapseU ('_' :: d :: t') = '_' :: collapseU (d :: t') := by
            simp [collapseU, hd]
          have hdw : List.dropWhile (fun a => a == '_') (d :: t') = d :: t' := by
            simp [List.dropWhile, hd]
          rw [hL, ih, hdw]
      · rw [if_neg hc]
        have hL : collapseU (c :: d :: t') = c :: collapseU (d :: t') := by
          simp [collapseU, hc]
        rw [hL, ih]

/-- Appending a trailing underscore does not change the trailing
strip. -/
theorem rstripU_append_underscore : ∀ l : List Char, rstripU (l ++ ['_']) = rstripU l := by
  intro l
  induction l with
  | nil => rfl
  | cons c l ih =>
    show rstripU (c :: (l ++ ['_'])) = rstripU (c :: l)
    rw [rstripU, ih, rstripU]

/-- Appending a non-underscore makes the trailing strip trivial. -/
theorem rstripU_append_ne (c : Char) (hc : (c == '_') = false) :
    ∀ l : List Char, rstripU (l ++ [c]) = l ++ [c] := by
  intro l
  induction l with
  | nil =>
    show rstripU [c] = [c]
    simp [rstripU, hc]
  | cons a l ih =>
    show rstripU (a :: (l ++ [c])) = a :: (l ++ [c])
    rw [rstripU, ih]
    rcases l with _ | ⟨b, l'⟩
    · rfl
    · rfl

/-- The recursive trailing strip equals the reverse/dropWhile/reverse
formulation used by the specification-side sanitiser. -/
theorem rstripU_eq_rev : ∀ l : List Char,
    rstripU l = ((l.reverse.dropWhile (fun c => c == '_')).reverse) := by
  intro l
  induction l using List.reverseRecOn with
  | nil => rfl
  | append_singleton l c ih =>
    by_cases hc : (c == '_') = true
    · have hceq : c = '_' := by simpa using hc
      subst hceq
      rw [rstripU_append_underscore, ih, List.reverse_append]
      simp [List.dropWhile_cons]
    · rw [rstripU_append_ne c (by simpa using hc), List.reverse_append]
      simp only [List.reverse_cons, List.reverse_nil, List.nil_append, List.singleton_append]
      have hcf : (c == '_') = false := by
        cases hx : (c == '_')
        · rfl
        · exact absurd hx hc
      have hdw : List.dropWhile (fun x => x == '_') (c :: l.reverse) = c :: l.reverse := by
        simp [List.dropWhile, hcf]
      rw [hdw]
      simp

/-- `clean_column_name` is the identity on a string that is already in
sanitised shape: non-empty, all word characters, no double underscore,
neither end an underscore, and fixed by the digit guard. -/
theorem clean_of_fixed (l : List Char) (hne : l ≠ [])
    (hw : ∀ a ∈ l, isWordChar a = true)
    (hnd : NoTwoU l)
    (hh : ∀ a, l.head? = some a → a ≠ '_')
    (hl : ∀ a, l.getLast? = some a → a ≠ '_')
    (hdg : digitGuard l = l) :
    clean_column_name ⟨l⟩ = ⟨l⟩ := by
  unfold clean_column_name
  have hdata : (String.mk l).data = l := rfl
  rw [hdata, pyReplaceBad_eq_self hw, collapseU_eq_self hnd, stripU_eq_self hh hl, hdg]
  have hie : l.isEmpty = false := by
    rcases l with _ | ⟨c, cs⟩
    · exact absurd rfl hne
    · rfl
  simp [hie]

/-! ## Claim theorems -/

/-- C4: `_clean_column_name` replaces each character outside
`[A-Za-z0-9_]` with an underscore, collapses consecutive underscores,
trims leading and trailing underscores, puts `col_` in front when the
result starts with a digit, falls back to `unnamed_column` when the
result is empty — in that order (it agrees with the sanitiser written
from the specification's wording) — and maps `"2023 Revenue (USD)"` to
`"col_2023_Revenue_USD"`. -/
theorem c4_sanitize_rules :
    (∀ s : String, clean_column_name s = sanitizeSpec s) ∧
    clean_column_name "2023 Revenue (USD)" = "col_2023_Revenue_USD" := by
  constructor
  · intro s
    have hcore : stripU (collapseU (pyReplaceBad s.data)) =
        (((specCollapse (s.data.map fun c => if isWordChar c then c else '_')).dropWhile
          (fun c => c == '_')).reverse.dropWhile (fun c => c == '_')).reverse := by
      unfold stripU pyReplaceBad
      rw [collapseU_eq_specCollapse, rstripU_eq_rev]
    simp only [clean_column_name, sanitizeSpec]
    rw [hcore]
    cases hE2 : (((specCollapse (s.data.map fun c => if isWordChar c then c else '_')).dropWhile
        (fun c => c == '_')).reverse.dropWhile (fun c => c == '_')).reverse with
    | nil => rfl
    | cons c cs =>
      by_cases hd : c.isDigit = true
      · simp [digitGuard, hd]
      · simp [digitGuard, hd]
  · decide

/-- C9: the sanitiser is idempotent — running `_clean_column_name` on
its own output returns that output unchanged. -/
theorem c9_sanitize_idempotent (s : String) :
    clean_column_name (clean_column_name s) = clean_column_name s := by
  have hw : ∀ a ∈ stripU (collapseU (pyReplaceBad s.data)), isWordChar a = true :=
    fun a ha => mem_pyReplaceBad (mem_collapseU (mem_stripU ha))
  have hnd : NoTwoU (stripU (collapseU (pyReplaceBad s.data))) :=
    noTwoU_stripU (noTwoU_collapseU _)
  rcases hE : stripU (collapseU (pyReplaceBad s.data)) with _ | ⟨c, cs⟩
  · have h1 : clean_column_name s = "unnamed_column" := by
      unfold clean_column_name
      rw [hE]
      rfl
    rw [h1]
    decide
  · rw [hE] at hw hnd
    have hcne : c ≠ '_' :=
      stripU_head_ne (l := collapseU (pyReplaceBad s.data)) (by rw [hE]; rfl)
    have hlast : ∀ a, (c :: cs).getLast? = some a → a ≠ '_' := fun a ha =>
      stripU_last_ne (l := collapseU (pyReplaceBad s.data)) (by rw [hE]; exact ha)
    have h1 : clean_column_name s = ⟨digitGuard (c :: cs)⟩ := by
      unfold clean_column_name
      rw [hE]
      have hie : (digitGuard (c :: cs)).isEmpty = false := by
        by_cases hd : c.isDigit = true
        · simp [digitGuard, hd]
        · simp [digitGuard, hd]
      simp only [hie, Bool.false_eq_true, if_false]
    rw [h1]
    by_cases hd : c.isDigit = true
    · have ho : digitGuard (c :: cs) = 'c' :: 'o' :: 'l' :: '_' :: c :: cs := by
        simp [digitGuard, hd]
      rw [ho]
      apply clean_of_fixed
      · simp
      · intro a ha
        simp only [List.mem_cons] at ha
        rcases ha with rfl | rfl | rfl | rfl | ha'
        · decide
        · decide
        · decide
        · decide
        · exact hw a (List.mem_cons.mpr ha')
      · refine List.chain'_cons.mpr ⟨by simp, ?_⟩
        refine List.chain'_cons.mpr ⟨by simp, ?_⟩
        refine List.chain'_cons.mpr ⟨by simp, ?_⟩
        refine List.chain'_cons.mpr ⟨fun hcon => hcne hcon.2, hnd⟩
      · intro a ha
        simp only [List.head?_cons, Option.some.injEq] at ha
        subst ha
        decide
      · intro a ha
        simp only [List.getLast?_cons_cons] at ha
        exact hlast a ha
      · have : ('c' : Char).isDigit = false := by decide
        simp [digitGuard, this]
    · have ho : digitGuard (c :: cs) = c :: cs := by
        simp [digitGuard, hd]
      rw [ho]
      apply clean_of_fixed
      · simp
      · exact hw
      · exact hnd
      · intro a ha
        simp only [List.head?_cons, Option.some.injEq] at ha
        subst ha
        exact hcne
      · exact hlast
      · simp [digitGuard, hd]

/-- C10: `csv_data` converts a field to an integer exactly when it is a
non-empty all-digit string; `"-5"` and `"1.5"` stay raw strings, and a
string value is never equal to an integer value. -/
theorem c10_digit_conversion :
    (∀ s : String, (∃ n, formatField s = .vInt n) ↔
      (s.data ≠ [] ∧ ∀ c ∈ s.data, c.isDigit = true)) ∧
    formatField "-5" = .vStr "-5" ∧ formatField "1.5" = .vStr "1.5" ∧
    (∀ t n, PyVal.vStr t ≠ PyVal.vInt n) := by
  refine ⟨?_, by decide, by decide, fun t n h => by cases h⟩
  intro s
  constructor
  · rintro ⟨n, hn⟩
    unfold formatField at hn
    by_cases hd : pyIsDigit s = true
    · unfold pyIsDigit at hd
      rcases Bool.and_eq_true_iff.mp hd with ⟨hne, hall⟩
      refine ⟨?_, List.all_eq_true.mp hall⟩
      intro hnil
      rw [hnil] at hne
      cases hne
    · rw [if_neg hd] at hn
      cases hn
  · rintro ⟨h1, h2⟩
    have hd : pyIsDigit s = true := by
      unfold pyIsDigit
      refine Bool.and_eq_true_iff.mpr ⟨?_, List.all_eq_true.mpr h2⟩
      rcases hsd : s.data with _ | ⟨c, cs⟩
      · exact absurd hsd h1
      · rfl
    exact ⟨digitsVal s.data, by unfold formatField; rw [if_pos hd]⟩

/-- C3: merge mode keeps exactly the incoming CSV data rows (header
dropped) whose whole value tuple is absent from the existing table
snapshot; on existing rows `(1,"a"),(2,"b")` and incoming rows
`(2,"b"),(3,"c")` only `(3,"c")` remains. -/
theorem c3_merge_filters_existing :
    (∀ (existing : List (List PyVal)) (rawCsv : List (List String)) (r : List PyVal),
      r ∈ newchanges_existingtable existing rawCsv ↔
        (r ∈ (csv_data_format rawCsv).drop 1 ∧ r ∉ existing)) ∧
    newchanges_existingtable [[.vInt 1, .vStr "a"], [.vInt 2, .vStr "b"]]
      [["x", "y"], ["2", "b"], ["3", "c"]] = [[.vInt 3, .vStr "c"]] := by
  constructor
  · intro existing rawCsv r
    unfold newchanges_existingtable
    rw [List.mem_filter]
    simp
  · decide

/-- C7: the professional analyser produces one column descriptor per
header field, but `create_table` in the minimal implementation does
not: on a two-column CSV whose second row is `"1","2023-01-02"` it
builds only one type entry (the date cell falls through every branch of
the broken `elif i.isnumeric:` classifier and contributes nothing). -/
theorem c7_column_count_bug :
    (∀ cols : List (String × List (Option String)),
      (analyze_columns cols).length = cols.length) ∧
    create_table_data_types ["1", "2023-01-02"] = ["int(11)"] := by
  refine ⟨fun cols => ?_, by decide⟩
  unfold analyze_columns
  rw [List.length_map]

/-- C1 counterexample: the column `["1","abc"]` contains a malformed
numeric value, yet `infer_sql_type` classifies it TINYINT — coercion
drops the failure instead of disqualifying the column. -/
theorem c1_no_numeric_counterexample :
    infer_sql_type [some "1", some "abc"] 255 = .TINYINT := by
  decide

/-- C2 counterexample: `["1"]` is an all-integer column inside
−128..127 but is classified BOOLEAN (the boolean check runs first), and
`["-2147483648"]` lies outside ±(2^31−1) yet is classified INT, not
BIGINT (the code's lower bound is −2^31). -/
theorem c2_int_bounds_counterexample :
    infer_sql_type [some "1"] 255 = .BOOLEAN ∧
    infer_sql_type [some "-2147483648"] 255 = .INT ∧
    SqlType.BOOLEAN ≠ SqlType.TINYINT ∧ SqlType.INT ≠ SqlType.BIGINT := by
  refine ⟨by decide, ?_, by decide, by decide⟩
  decide

/-- C5 counterexample: for the column `["abc"]` the code returns
`VARCHAR(3)` (truncation of `3 × 1.2`), while rounding as the claim
states would give `VARCHAR(4)`. -/
theorem c5_varchar_counterexample :
    infer_sql_type [some "abc"] 255 = .VARCHAR 3 ∧
    min (spec_round (6 * 3) 5) 255 = 4 ∧ (3 : Nat) ≠ 4 := by
  refine ⟨by decide, by decide, by decide⟩

/-- C6 counterexample: the column `["2023-01-02","zzz"]` is classified
DATE although `"zzz"` does not parse as a date — the code only needs
one of the first ten values to parse, not the full column. -/
theorem c6_date_counterexample :
    infer_sql_type [some "2023-01-02", some "zzz"] 255 = .DATE ∧
    pdToDatetimeOk "zzz" = false := by
  refine ⟨by decide, by decide⟩

/-- The VARCHAR/TEXT fallback never produces a numeric or date type. -/
theorem varcharFallback_shape (vals : List String) (L : Nat) :
    varcharFallback vals L = .TEXT ∨ ∃ n, varcharFallback vals L = .VARCHAR n := by
  unfold varcharFallback
  split
  · exact Or.inl rfl
  · split
    · exact Or.inl rfl
    · exact Or.inr ⟨_, rfl⟩

/-- C1 (amended): a malformed numeric value disqualifies the numeric
classification only when no value in the column parses as a number; in
that case the integer and decimal checks are both false and
`infer_sql_type` returns none of TINYINT, SMALLINT, INT, BIGINT,
DECIMAL(10,2) — the column is settled by the remaining non-numeric
rules. -/
theorem c1_all_unparseable_amended (series : List (Option String)) (L : Nat)
    (h : ∀ v ∈ dropna series, parseNum v = none) :
    isIntegerCol (dropna series) = false ∧ isFloatCol (dropna series) = false ∧
    infer_sql_type series L ≠ .TINYINT ∧ infer_sql_type series L ≠ .SMALLINT ∧
    infer_sql_type series L ≠ .INT ∧ infer_sql_type series L ≠ .BIGINT ∧
    infer_sql_type series L ≠ .DECIMAL10_2 := by
  have hc : coerced (dropna series) = [] := by
    unfold coerced
    exact List.filterMap_eq_nil_iff.mpr h
  have hI : isIntegerCol (dropna series) = false := by
    unfold isIntegerCol
    rw [hc]
    rfl
  have hF : isFloatCol (dropna series) = false := by
    unfold isFloatCol
    rw [hc]
    rfl
  refine ⟨hI, hF, ?_⟩
  have hshape : infer_sql_type series L = .TEXT ∨ infer_sql_type series L = .BOOLEAN ∨
      infer_sql_type series L = .DATE ∨ infer_sql_type series L = .DATETIME ∨
      ∃ n, infer_sql_type series L = .VARCHAR n := by
    unfold infer_sql_type
    simp only [hI, hF, Bool.false_eq_true, if_false]
    split
    · exact Or.inl rfl
    · split
      · exact Or.inr (Or.inl rfl)
      · split
        · exact Or.inr (Or.inr (Or.inl rfl))
        · split
          · exact Or.inr (Or.inr (Or.inr (Or.inl rfl)))
          · rcases varcharFallback_shape (dropna series) L with hv | ⟨n, hv⟩
            · exact Or.inl hv
            · exact Or.inr (Or.inr (Or.inr (Or.inr ⟨n, hv⟩)))
  rcases hshape with h1 | h1 | h1 | h1 | ⟨n, h1⟩ <;> rw [h1] <;>
    exact ⟨by simp, by simp, by simp, by simp, by simp⟩

/-- C1 amended witness: the column `["abc"]`, in which nothing parses
as a number. -/
theorem c1_amended_witness :
    isIntegerCol (dropna [some "abc"]) = false ∧
    isFloatCol (dropna [some "abc"]) = false ∧
    infer_sql_type [some "abc"] 255 ≠ .TINYINT ∧
    infer_sql_type [some "abc"] 255 ≠ .SMALLINT ∧
    infer_sql_type [some "abc"] 255 ≠ .INT ∧
    infer_sql_type [some "abc"] 255 ≠ .BIGINT ∧
    infer_sql_type [some "abc"] 255 ≠ .DECIMAL10_2 :=
  c1_all_unparseable_amended [some "abc"] 255 (by decide)

/-- C2 (amended): on a non-empty column in which every value parses as
an integer and whose values are not all boolean tokens, `infer_sql_type`
picks the narrowest width from the observed minimum and maximum:
TINYINT on −128..127, SMALLINT on −32768..32767, INT on −2^31..2^31−1,
BIGINT otherwise. -/
theorem c2_narrowest_int_amended (series : List (Option String)) (L : Nat)
    (h1 : dropna series ≠ [])
    (h2 : ∀ v ∈ dropna series, ∃ q : ℚ, parseNum v = some q ∧ q.den = 1)
    (h3 : isBooleanCol (dropna series) = false) :
    infer_sql_type series L =
      if -128 ≤ listMinQ (coerced (dropna series)) ∧
          listMaxQ (coerced (dropna series)) ≤ 127 then SqlType.TINYINT
      else if -32768 ≤ listMinQ (coerced (dropna series)) ∧
          listMaxQ (coerced (dropna series)) ≤ 32767 then SqlType.SMALLINT
      else if -2147483648 ≤ listMinQ (coerced (dropna series)) ∧
          listMaxQ (coerced (dropna series)) ≤ 2147483647 then SqlType.INT
      else SqlType.BIGINT := by
  have hne : (coerced (dropna series)).isEmpty = false := by
    rcases hd : dropna series with _ | ⟨v, t⟩
    · exact absurd hd h1
    · rcases h2 v (by rw [hd]; exact List.mem_cons_self _ _) with ⟨q, hq, _⟩
      unfold coerced
      rw [List.filterMap_cons, hq]
      rfl
  have hall : ∀ q ∈ coerced (dropna series), (q.den == 1) = true := by
    intro q hq
    unfold coerced at hq
    rcases List.mem_filterMap.mp hq with ⟨v, hv, hpv⟩
    rcases h2 v hv with ⟨q', hq', hden⟩
    rw [hq'] at hpv
    injection hpv with hqq
    subst hqq
    simp [hden]
  have hInt : isIntegerCol (dropna series) = true := by
    unfold isIntegerCol
    rw [hne, List.all_eq_true.mpr hall]
    rfl
  have hlen : ¬((dropna series).length = 0) := by
    simpa [List.length_eq_zero] using h1
  simp only [infer_sql_type]
  rw [if_neg hlen, if_neg (by simp [h3]), if_pos hInt]
  unfold intTypeFor
  rw [hne]
  simp only [Bool.false_eq_true, if_false]

/-- C2 amended witness: the column `["200"]` gets SMALLINT. -/
theorem c2_amended_witness :
    infer_sql_type [some "200"] 255 =
      if -128 ≤ listMinQ (coerced (dropna [some "200"])) ∧
          listMaxQ (coerced (dropna [some "200"])) ≤ 127 then SqlType.TINYINT
      else if -32768 ≤ listMinQ (coerced (dropna [some "200"])) ∧
          listMaxQ (coerced (dropna [some "200"])) ≤ 32767 then SqlType.SMALLINT
      else if -2147483648 ≤ listMinQ (coerced (dropna [some "200"])) ∧
          listMaxQ (coerced (dropna [some "200"])) ≤ 2147483647 then SqlType.INT
      else SqlType.BIGINT :=
  c2_narrowest_int_amended [some "200"] 255 (by decide)
    (by
      intro v hv
      rw [show dropna [some "200"] = ["200"] from rfl] at hv
      rcases List.mem_singleton.mp hv with rfl
      exact ⟨200, by decide, by decide⟩)
    (by decide)

/-- C5 (amended): on a non-empty column rejected by the boolean,
integer, decimal, date and datetime checks, `infer_sql_type` returns
TEXT when the longest value exceeds the bound and otherwise
`VARCHAR(min(floor(max_observed_length × 1.2), max_varchar_length))` —
Python's `int()` truncates the product rather than rounding it. -/
theorem c5_varchar_truncation_amended (series : List (Option String)) (L : Nat)
    (h1 : dropna series ≠ [])
    (hb : isBooleanCol (dropna series) = false)
    (hi : isIntegerCol (dropna series) = false)
    (hf : isFloatCol (dropna series) = false)
    (hd : isDateCol (dropna series) = false)
    (hdt : isDatetimeCol (dropna series) = false) :
    infer_sql_type series L =
      if L < maxObservedLen (dropna series) then SqlType.TEXT
      else SqlType.VARCHAR (min (6 * maxObservedLen (dropna series) / 5) L) := by
  have hlen : ¬((dropna series).length = 0) := by
    simpa [List.length_eq_zero] using h1
  have hie : (dropna series).isEmpty = false := by
    rcases hs : dropna series with _ | ⟨v, t⟩
    · exact absurd hs h1
    · rfl
  simp only [infer_sql_type]
  rw [if_neg hlen, if_neg (by simp [hb]), if_neg (by simp [hi]), if_neg (by simp [hf]),
    if_neg (by simp [hd]), if_neg (by simp [hdt])]
  unfold varcharFallback
  rw [hie]
  simp only [Bool.false_eq_true, if_false]

/-- C5 amended witness: the column `["abc"]` (longest value 3) gets
`VARCHAR(min(3, 255))`. -/
theorem c5_amended_witness :
    infer_sql_type [some "abc"] 255 =
      if 255 < maxObservedLen (dropna [some "abc"]) then SqlType.TEXT
      else SqlType.VARCHAR (min (6 * maxObservedLen (dropna [some "abc"]) / 5) 255) :=
  c5_varchar_truncation_amended [some "abc"] 255 (by decide) (by decide) (by decide)
    (by decide) (by decide) (by decide)

/-- C6 (amended): on a non-empty column rejected by the boolean,
integer and decimal checks, `infer_sql_type` returns DATE exactly when
the first value matches one of the recognised date patterns and at
least one of the first ten values parses as a date — the rest of the
column is never examined. -/
theorem c6_date_sample_parse_amended (series : List (Option String)) (L : Nat)
    (h1 : dropna series ≠ [])
    (hb : isBooleanCol (dropna series) = false)
    (hi : isIntegerCol (dropna series) = false)
    (hf : isFloatCol (dropna series) = false) :
    (infer_sql_type series L = SqlType.DATE ↔
      (matchesDatePattern ((dropna series).headD "") = true ∧
        ((dropna series).take 10).any pdToDatetimeOk = true)) := by
  have hlen : ¬((dropna series).length = 0) := by
    simpa [List.length_eq_zero] using h1
  simp only [infer_sql_type]
  rw [if_neg hlen, if_neg (by simp [hb]), if_neg (by simp [hi]), if_neg (by simp [hf])]
  rcases hs : dropna series with _ | ⟨v, t⟩
  · exact absurd hs h1
  · simp only [isDateCol, List.headD_cons]
    have helse : (if isDatetimeCol (v :: t) = true then SqlType.DATETIME
        else varcharFallback (v :: t) L) ≠ SqlType.DATE := by
      by_cases hdt : isDatetimeCol (v :: t) = true
      · rw [if_pos hdt]
        simp
      · rw [if_neg hdt]
        rcases varcharFallback_shape (v :: t) L with hv | ⟨n, hv⟩ <;> rw [hv] <;> simp
    rcases Bool.eq_false_or_eq_true (matchesDatePattern v) with hmd | hmd
    · rcases Bool.eq_false_or_eq_true (((v :: t).take 10).any pdToDatetimeOk) with han | han
      · simp only [hmd, han, Bool.and_self]
        rw [if_pos trivial]
        exact ⟨fun _ => ⟨trivial, trivial⟩, fun _ => rfl⟩
      · simp only [hmd, han, Bool.and_false, Bool.false_eq_true]
        rw [if_neg not_false]
        exact ⟨fun hcontra => absurd hcontra helse, fun hrhs => hrhs.2.elim⟩
    · simp only [hmd, Bool.false_and, Bool.false_eq_true]
      rw [if_neg not_false]
      exact ⟨fun hcontra => absurd hcontra helse, fun hrhs => hrhs.1.elim⟩

/-- C6 amended witness: the column `["2023-01-02","zzz"]`. -/
theorem c6_amended_witness :
    (infer_sql_type [some "2023-01-02", some "zzz"] 255 = SqlType.DATE ↔
      (matchesDatePattern ((dropna [some "2023-01-02", some "zzz"]).headD "") = true ∧
        ((dropna [some "2023-01-02", some "zzz"]).take 10).any pdToDatetimeOk = true)) :=
  c6_date_sample_parse_amended [some "2023-01-02", some "zzz"] 255
    (by decide) (by decide) (by decide) (by decide)

/-- C8: opening the row source fails with `FileNotFoundError` exactly
when the path is absent from the file system, fails with
`UnicodeDecodeError` exactly when the stored bytes are not valid UTF-8,
and otherwise yields the digit-converted rows parsed from the decoded
text. -/
theorem c8_row_source_errors (readerF : List Char → List (List String))
    (fs : String → Option (List Nat)) (path : String) :
    (csv_data_model readerF fs path = .error .notFound ↔ fs path = none) ∧
    (csv_data_model readerF fs path = .error .encoding ↔
      ∃ bytes, fs path = some bytes ∧ utf8Decode bytes = none) ∧
    (∀ bytes text, fs path = some bytes → utf8Decode bytes = some text →
      csv_data_model readerF fs path = .ok (csv_data_format (readerF text))) := by
  rcases hfs : fs path with _ | bytes
  · refine ⟨?_, ?_, ?_⟩
    · simp [csv_data_model, hfs]
    · simp [csv_data_model, hfs]
    · intro bytes text hb
      cases hb
  · rcases hdec : utf8Decode bytes with _ | text
    · refine ⟨?_, ?_, ?_⟩
      · simp [csv_data_model, hfs, hdec]
      · simp [csv_data_model, hfs, hdec]
      · intro b t hb ht
        injection hb with hb
        subst hb
        rw [hdec] at ht
        cases ht
    · refine ⟨?_, ?_, ?_⟩
      · simp [csv_data_model, hfs, hdec]
      · simp [csv_data_model, hfs, hdec]
      · intro b t hb ht
        injection hb with hb
        subst hb
        rw [hdec] at ht
        injection ht with ht
        subst ht
        simp [csv_data_model, hfs, hdec]

/-- C8 witness: on the one-file system holding `data.csv` = byte 0x31,
extraction succeeds and yields the formatted parsed rows. -/
theorem c8_row_source_errors_witness :
    csv_data_model sampleReader sampleFs "data.csv" =
      .ok (csv_data_format (sampleReader ['1'])) :=
  (c8_row_source_errors sampleReader sampleFs "data.csv").2.2 [49] ['1']
    (by decide) (by decide)
